import Mathlib

/-!
Shallow embedding of the Data_Robotics notebook code
(Numpy_Essencial_Para_Desenvolvedores_Python_Metodos_2_IA_Expert_Academy.ipynb)
and proofs about it.

The first notebook defines a single helper, `filter_and_replace`, which
performs a vectorised conditional replacement on a numpy array and returns
the (mutated) array itself.

The second notebook defines a toy Monte Carlo pipeline:
`SimulationConfig`, `OptimizedNormalDistribution` (a normal distribution
with an internal pre-drawn sample cache of 5000 draws),
`MemoryAwareMonteCarloEngine` (batch loop) and `MemoryEfficientAnalyzer`
(aggregation of per-batch metrics).

Modelling conventions:
- numpy arrays become Lean lists; element values live in `ℝ` (the code's
  float32 values are modelled exactly, so no rounding, NaN or infinity
  arises in the model);
- the numpy `Generator` becomes an abstract stream of standard draws
  `Nat → ℝ` plus a position; `normal(mu, sigma, n)` consumes `n` stream
  values and returns their affine images, `uniform(lo, hi)` consumes one;
  this keeps exactly the structure that matters for the claims (how many
  draws are consumed, sharing of the generator, determinism in the seed);
- in-place mutation of an array (needed only for `filter_and_replace`'s
  aliasing behaviour) is modelled by a heap mapping references to lists.
-/

noncomputable section

/-- Translation of the first notebook's `filter_and_replace(arr, condition,
new_value)`: the boolean mask `condition(arr)` selects entries elementwise and
`arr[mask] = new_value` overwrites exactly the selected entries. -/
def filter_and_replace {α : Type} (arr : List α) (condition : α → Bool)
    (new_value : α) : List α :=
  arr.map (fun x => if condition x then new_value else x)

/-- Heap of numpy arrays, used to model object identity and in-place
mutation: a reference is a `Nat`, the heap maps each reference to the
array's current contents. -/
structure Heap where
  arrays : Nat → List ℝ

/-- Write the contents `v` at reference `r`. -/
def Heap.write (h : Heap) (r : Nat) (v : List ℝ) : Heap :=
  Heap.mk (fun q => if q = r then v else h.arrays q)

/-- Stateful view of `filter_and_replace`: the source mutates `arr` in place
(`arr[condition(arr)] = new_value`) and then `return arr` returns the very
same object, so in the heap model the contents at the argument reference are
overwritten and the argument reference itself is returned. -/
def filter_and_replace_ref (h : Heap) (r : Nat) (condition : ℝ → Bool)
    (new_value : ℝ) : Heap × Nat :=
  (h.write r (filter_and_replace (h.arrays r) condition new_value), r)

/-- Model of the numpy `Generator` shared by the engine and all
distributions: an abstract stream of standard draws plus the current
position. The exact numeric values of the PRNG's normal and uniform draws
are abstracted into the stream; what the model keeps is how many draws each
operation consumes and that every value is a function of the stream alone. -/
structure RNG where
  stream : Nat → ℝ
  pos : Nat

/-- Model of `rng.normal(mu, sigma, n)`: consume `n` stream values and
return their affine images under `x ↦ mu + sigma * x`. -/
def RNG.normalVec (g : RNG) (mu sigma : ℝ) (n : Nat) : List ℝ × RNG :=
  ((List.range n).map (fun i => mu + sigma * g.stream (g.pos + i)),
   RNG.mk g.stream (g.pos + n))

/-- Model of the scalar `rng.normal(mu, sigma)`: consume one stream value. -/
def RNG.normalScalar (g : RNG) (mu sigma : ℝ) : ℝ × RNG :=
  (mu + sigma * g.stream g.pos, RNG.mk g.stream (g.pos + 1))

/-- Model of the scalar `rng.uniform(lo, hi)`: consume one stream value. -/
def RNG.uniformScalar (g : RNG) (lo hi : ℝ) : ℝ × RNG :=
  (lo + (hi - lo) * g.stream g.pos, RNG.mk g.stream (g.pos + 1))

/-- Translation of `OptimizedNormalDistribution.__init__`'s persistent
state: law parameters `mu`/`sigma`, the cached sample block
(`_cached_samples`, `none` models Python's `None`) and `_cache_size`.
The shared `rng` is passed explicitly to `sample` instead of being stored,
and the `dtype` (float32) is modelled by exact reals. -/
structure OptimizedNormalDistribution where
  mu : ℝ
  sigma : ℝ
  cached_samples : Option (List ℝ)
  cache_size : Nat

/-- Translation of the constructor body: `_cached_samples = None`,
`_cache_size = 5000`. -/
def OptimizedNormalDistribution.init (mu sigma : ℝ) :
    OptimizedNormalDistribution :=
  OptimizedNormalDistribution.mk mu sigma none 5000

/-- The refill test of `sample`: `self._cached_samples is None or
len(self._cached_samples) < size`. -/
def needsRefill (d : OptimizedNormalDistribution) (size : Nat) : Bool :=
  match d.cached_samples with
  | none => true
  | some c => decide (c.length < size)

/-- Translation of `OptimizedNormalDistribution.sample(size)`: when the
cache is absent or shorter than `size` it is replaced wholesale by a fresh
block of `_cache_size` normal draws; the result is the first `size` elements
of the (possibly refilled) cache (`[:size]`, which like Python slicing takes
at most what is there) and the cache is set to the remainder (`[size:]`).
Returns (result, new distribution state, new generator state). -/
def OptimizedNormalDistribution.sample (d : OptimizedNormalDistribution)
    (g : RNG) (size : Nat) :
    List ℝ × OptimizedNormalDistribution × RNG :=
  let cg := if needsRefill d size then RNG.normalVec g d.mu d.sigma d.cache_size
            else (d.cached_samples.getD [], g)
  (cg.1.take size,
   OptimizedNormalDistribution.mk d.mu d.sigma (some (cg.1.drop size)) d.cache_size,
   cg.2)

/-- The cache contents from which `sample` slices: the fresh block when a
refill happens, the pre-existing cache otherwise. This names the value of
`self._cached_samples` at the point just before `result = self._cached_samples[:size]`. -/
def sampleCacheUsed (d : OptimizedNormalDistribution) (g : RNG) (size : Nat) :
    List ℝ :=
  if needsRefill d size then (RNG.normalVec g d.mu d.sigma d.cache_size).1
  else d.cached_samples.getD []

/-- Model of `np.mean` over all elements of an array. -/
def npMean (l : List ℝ) : ℝ := l.sum / l.length

/-- Model of `np.var` (population variance) over all elements. -/
def npVar (l : List ℝ) : ℝ :=
  (l.map (fun x => (x - npMean l) ^ 2)).sum / l.length

/-- Model of `np.std`: the square root of the population variance. -/
def npStd (l : List ℝ) : ℝ := Real.sqrt (npVar l)

/-- Model of `np.min` on a (nonempty) array: fold of the binary minimum. -/
def npMin : List ℝ → ℝ
  | [] => 0
  | x :: xs => xs.foldl min x

/-- Model of `np.max` on a (nonempty) array: fold of the binary maximum. -/
def npMax : List ℝ → ℝ
  | [] => 0
  | x :: xs => xs.foldl max x

/-- Translation of `SimulationConfig`: the scalar parameters set in its
constructor (`dtype = np.float32` is modelled by exact reals). -/
structure SimulationConfig where
  n_simulations : Nat
  batch_size : Nat
  n_variables : Nat
  confidence_level : ℝ
  optimization_target : ℝ
  max_memory_usage : Nat

/-- The constructor values of `SimulationConfig.__init__`. -/
def SimulationConfig.default : SimulationConfig :=
  SimulationConfig.mk 40000 1000 4 0.95 1 (14 * 1024 * 1024 * 1024)

/-- Translation of the per-batch record built by `_process_batch`:
`{'mean': ..., 'std': ..., 'var': ...}`. -/
structure BatchMetrics where
  mean : ℝ
  std : ℝ
  var : ℝ

/-- Translation of `_process_batch(batch_data)`: mean, std and var of the
whole batch matrix (all elements pooled; the matrix is represented as its
list of columns, and mean/std/var do not depend on element order). -/
def process_batch (cols : List (List ℝ)) : BatchMetrics :=
  BatchMetrics.mk (npMean cols.flatten) (npStd cols.flatten) (npVar cols.flatten)

/-- Translation of `_initialize_distributions`: for each of the
`n_variables` variables draw `mu = rng.normal(0, 1)` and
`sigma = rng.uniform(0.5, 2)` from the shared generator and append a fresh
`OptimizedNormalDistribution`. -/
def init_distributions : Nat → RNG → List OptimizedNormalDistribution × RNG
  | 0, g => ([], g)
  | n + 1, g =>
      let m := RNG.normalScalar g 0 1
      let s := RNG.uniformScalar m.2 0.5 2
      let rest := init_distributions n s.2
      (OptimizedNormalDistribution.init m.1 s.1 :: rest.1, rest.2)

/-- The mutable state of `MemoryAwareMonteCarloEngine` during a run: its
list of distributions and the shared generator. -/
def EngineState : Type := List OptimizedNormalDistribution × RNG

/-- Translation of `MemoryAwareMonteCarloEngine.__init__` given the stream
determined by `np.random.default_rng(seed=42)`: the generator starts at
position 0 and the distributions are initialized from it. -/
def engine_init (cfg : SimulationConfig) (stream : Nat → ℝ) : EngineState :=
  init_distributions cfg.n_variables (RNG.mk stream 0)

/-- Translation of `_simulate_batch(batch_size)`: ask each distribution in
order for `batch_size` samples, each call updating that distribution's cache
and the shared generator; column `i` of the batch matrix is distribution
`i`'s output. Returns (columns, updated distributions, updated generator). -/
def simulate_batch (bs : Nat) :
    List OptimizedNormalDistribution → RNG →
    List (List ℝ) × List OptimizedNormalDistribution × RNG
  | [], g => ([], [], g)
  | d :: ds, g =>
      let r := d.sample g bs
      let rest := simulate_batch bs ds r.2.2
      (r.1 :: rest.1, r.2.1 :: rest.2.1, rest.2.2)

/-- One iteration of the loop body of `run_simulation`: simulate a batch and
reduce it to its metrics. -/
def engineStep (bs : Nat) (s : EngineState) : BatchMetrics × EngineState :=
  let r := simulate_batch bs s.1 s.2
  (process_batch r.1, (r.2.1, r.2.2))

/-- The engine state before batch `i`: `i` iterations of the loop body. -/
def engineStateAt (bs : Nat) : EngineState → Nat → EngineState
  | s, 0 => s
  | s, i + 1 => engineStateAt bs (engineStep bs s).2 i

/-- The loop of `run_simulation` with the `ThreadPoolExecutor` removed:
`n_batches` sequential iterations of the loop body, accumulating the metrics
in batch index order. This is the comparison definition for the claim that
the executor contributes nothing. -/
def runBatchesSeq (bs : Nat) : Nat → EngineState → List BatchMetrics × EngineState
  | 0, s => ([], s)
  | k + 1, s =>
      let p := engineStep bs s
      let rest := runBatchesSeq bs k p.2
      (p.1 :: rest.1, rest.2)

/-- Model of the `ThreadPoolExecutor(max_workers=4)` object: its worker cap
and the list of tasks submitted to it. -/
structure ThreadPoolExecutor where
  max_workers : Nat
  submitted : List Nat

/-- Translation of the loop of `run_simulation` as written: inside the
`with ThreadPoolExecutor(max_workers=4) as executor:` block each iteration
simulates a batch, reduces it and appends the metrics; no statement of the
body refers to `executor`, so the executor state is threaded through
unchanged. -/
def runBatchesPool (bs : Nat) :
    Nat → EngineState → ThreadPoolExecutor →
    List BatchMetrics × EngineState × ThreadPoolExecutor
  | 0, s, ex => ([], s, ex)
  | k + 1, s, ex =>
      let p := engineStep bs s
      let rest := runBatchesPool bs k p.2 ex
      (p.1 :: rest.1, rest.2.1, rest.2.2)

/-- Translation of `run_simulation()`: `n_batches = n_simulations //
batch_size` (floor division) iterations, run inside a fresh
`ThreadPoolExecutor(max_workers=4)`. Returns (results list, final engine
state, final executor state). -/
def run_simulation (cfg : SimulationConfig) (s : EngineState) :
    List BatchMetrics × EngineState × ThreadPoolExecutor :=
  runBatchesPool cfg.batch_size (cfg.n_simulations / cfg.batch_size) s
    (ThreadPoolExecutor.mk 4 [])

/-- The same loop as a plain sequential loop with the executor removed. -/
def run_simulation_seq (cfg : SimulationConfig) (s : EngineState) :
    List BatchMetrics × EngineState :=
  runBatchesSeq cfg.batch_size (cfg.n_simulations / cfg.batch_size) s

/-- Translation of the record returned by `compute_aggregate_metrics`. -/
structure AggregateMetrics where
  overall_mean : ℝ
  overall_std : ℝ
  min_value : ℝ
  max_value : ℝ

/-- Translation of `MemoryEfficientAnalyzer.compute_aggregate_metrics`:
extract the `mean` and `std` sequences of the results and return
{mean of means, mean of stds, min of means, max of means}. -/
def compute_aggregate_metrics (results : List BatchMetrics) : AggregateMetrics :=
  AggregateMetrics.mk (npMean (results.map BatchMetrics.mean))
    (npMean (results.map BatchMetrics.std))
    (npMin (results.map BatchMetrics.mean))
    (npMax (results.map BatchMetrics.mean))

/-- A sequence of `sample` calls against one distribution, threading the
distribution's cache state and the generator; returns the list of returned
sample blocks. -/
def sampleCalls : OptimizedNormalDistribution → RNG → List Nat → List (List ℝ)
  | _, _, [] => []
  | d, g, n :: ns =>
      let r := d.sample g n
      r.1 :: sampleCalls r.2.1 r.2.2 ns

/-- C4: filter_and_replace maps each entry through the conditional
replacement (matched entries become `new_value`, unmatched entries are
unchanged), and a predicate matched by no entry leaves the array equal to its
original contents. -/
theorem filter_and_replace_spec {α : Type} (arr : List α) (condition : α → Bool)
    (new_value : α) :
    (∀ i : Nat, (filter_and_replace arr condition new_value)[i]? =
      arr[i]?.map (fun x => if condition x then new_value else x)) ∧
    ((∀ x ∈ arr, condition x = false) →
      filter_and_replace arr condition new_value = arr) := by
  constructor
  · intro i
    simp [filter_and_replace]
  · intro hnone
    have : arr.map (fun x => if condition x then new_value else x) =
        arr.map (fun x => x) := by
      apply List.map_congr_left
      intro x hx
      simp [hnone x hx]
    simpa [filter_and_replace] using this

/-- Witness for C4 at a concrete array and a predicate matching nothing. -/
theorem filter_and_replace_spec_witness :
    (∀ x ∈ [1, 2, 3], (fun y => decide (y > 5)) x = false) ∧
    filter_and_replace [1, 2, 3] (fun y => decide (y > 5)) 0 = [1, 2, 3] := by
  refine ⟨by decide, ?_⟩
  exact (filter_and_replace_spec [1, 2, 3] (fun y => decide (y > 5)) 0).2
    (by decide)

/-- C9: the stateful filter_and_replace returns the very reference it was
given, the contents at that reference now hold the replaced values, and
every other reference is untouched. -/
theorem filter_and_replace_ref_spec (h : Heap) (r : Nat) (condition : ℝ → Bool)
    (new_value : ℝ) :
    (filter_and_replace_ref h r condition new_value).2 = r ∧
    (filter_and_replace_ref h r condition new_value).1.arrays r =
      filter_and_replace (h.arrays r) condition new_value ∧
    (∀ q : Nat, q ≠ r →
      (filter_and_replace_ref h r condition new_value).1.arrays q = h.arrays q) := by
  refine ⟨rfl, ?_, ?_⟩
  · simp [filter_and_replace_ref, Heap.write]
  · intro q hq
    simp [filter_and_replace_ref, Heap.write, hq]

/-- Witness for C9 at a concrete heap and a distinct reference. -/
theorem filter_and_replace_ref_spec_witness :
    (1 : Nat) ≠ 0 ∧
    (filter_and_replace_ref (Heap.mk fun _ => []) 0 (fun _ => true) 5).1.arrays 1 =
      (Heap.mk fun _ => []).arrays 1 := by
  refine ⟨by decide, ?_⟩
  exact (filter_and_replace_ref_spec (Heap.mk fun _ => []) 0 (fun _ => true) 5).2.2
    1 (by decide)

/-- When the refill test fails, the cache is a present block of at least
`size` elements. -/
theorem needsRefill_eq_false (d : OptimizedNormalDistribution) (size : Nat)
    (hr : needsRefill d size = false) :
    ∃ c, d.cached_samples = some c ∧ size ≤ c.length := by
  cases hc : d.cached_samples with
  | none => simp [needsRefill, hc] at hr
  | some c =>
      refine ⟨c, rfl, ?_⟩
      simp [needsRefill, hc] at hr
      omega

/-- C1: the refilled cache is a fresh block of exactly `_cache_size = 5000`
draws (never `size` draws); the returned value is the first `size` elements
of the possibly refilled cache; exactly that prefix is removed from the
cache; and without a refill the cache shrinks by exactly `size`. -/
theorem sample_spec (d : OptimizedNormalDistribution) (g : RNG) (size : Nat)
    (h5000 : d.cache_size = 5000) :
    (needsRefill d size = true → (sampleCacheUsed d g size).length = 5000) ∧
    (d.sample g size).1 = (sampleCacheUsed d g size).take size ∧
    (d.sample g size).2.1.cached_samples =
      some ((sampleCacheUsed d g size).drop size) ∧
    (d.sample g size).1 ++ (sampleCacheUsed d g size).drop size =
      sampleCacheUsed d g size ∧
    (needsRefill d size = false →
      ((d.sample g size).2.1.cached_samples.getD []).length + size =
        (d.cached_samples.getD []).length) := by
  have e2 : (d.sample g size).1 = (sampleCacheUsed d g size).take size := by
    cases hr : needsRefill d size <;>
      simp [OptimizedNormalDistribution.sample, sampleCacheUsed, hr]
  have e3 : (d.sample g size).2.1.cached_samples =
      some ((sampleCacheUsed d g size).drop size) := by
    cases hr : needsRefill d size <;>
      simp [OptimizedNormalDistribution.sample, sampleCacheUsed, hr]
  refine ⟨?_, e2, e3, ?_, ?_⟩
  · intro hr
    simp [sampleCacheUsed, hr, RNG.normalVec, h5000]
  · rw [e2]
    exact List.take_append_drop size _
  · intro hr
    obtain ⟨c, hc, hlen⟩ := needsRefill_eq_false d size hr
    rw [e3]
    simp [sampleCacheUsed, hr, hc]
    omega

/-- Witness for C1 on a freshly constructed distribution. -/
theorem sample_spec_witness :
    (OptimizedNormalDistribution.init 0 1).cache_size = 5000 ∧
    (needsRefill (OptimizedNormalDistribution.init 0 1) 3 = true →
      (sampleCacheUsed (OptimizedNormalDistribution.init 0 1)
        (RNG.mk (fun _ => 0) 0) 3).length = 5000) ∧
    ((OptimizedNormalDistribution.init 0 1).sample (RNG.mk (fun _ => 0) 0) 3).1 =
      (sampleCacheUsed (OptimizedNormalDistribution.init 0 1)
        (RNG.mk (fun _ => 0) 0) 3).take 3 ∧
    ((OptimizedNormalDistribution.init 0 1).sample
        (RNG.mk (fun _ => 0) 0) 3).2.1.cached_samples =
      some ((sampleCacheUsed (OptimizedNormalDistribution.init 0 1)
        (RNG.mk (fun _ => 0) 0) 3).drop 3) ∧
    ((OptimizedNormalDistribution.init 0 1).sample (RNG.mk (fun _ => 0) 0) 3).1 ++
      (sampleCacheUsed (OptimizedNormalDistribution.init 0 1)
        (RNG.mk (fun _ => 0) 0) 3).drop 3 =
      sampleCacheUsed (OptimizedNormalDistribution.init 0 1)
        (RNG.mk (fun _ => 0) 0) 3 ∧
    (needsRefill (OptimizedNormalDistribution.init 0 1) 3 = false →
      (((OptimizedNormalDistribution.init 0 1).sample
          (RNG.mk (fun _ => 0) 0) 3).2.1.cached_samples.getD []).length + 3 =
        ((OptimizedNormalDistribution.init 0 1).cached_samples.getD []).length) :=
  ⟨rfl, sample_spec (OptimizedNormalDistribution.init 0 1)
    (RNG.mk (fun _ => 0) 0) 3 rfl⟩

/-- C5: a first call `sample n` on a freshly constructed distribution
returns exactly `n` values whenever `n ≤ 5000`. -/
theorem sample_fresh_length (mu sigma : ℝ) (g : RNG) (n : Nat)
    (h : n ≤ 5000) :
    ((OptimizedNormalDistribution.init mu sigma).sample g n).1.length = n := by
  simp [OptimizedNormalDistribution.sample, OptimizedNormalDistribution.init,
    needsRefill, RNG.normalVec]
  omega

/-- Witness for C5 at `n = 3`. -/
theorem sample_fresh_length_witness :
    (3 : Nat) ≤ 5000 ∧
    ((OptimizedNormalDistribution.init 0 1).sample (RNG.mk (fun _ => 1) 0) 3).1.length = 3 :=
  ⟨by norm_num, sample_fresh_length 0 1 (RNG.mk (fun _ => 1) 0) 3 (by norm_num)⟩

/-- A fold of the binary minimum is below its initial value. -/
theorem foldl_min_le_init (xs : List ℝ) (a : ℝ) : xs.foldl min a ≤ a := by
  induction xs generalizing a with
  | nil => exact le_refl a
  | cons x xs ih => exact le_trans (ih (min a x)) (min_le_left a x)

/-- A fold of the binary minimum is below every folded element. -/
theorem foldl_min_le_mem (xs : List ℝ) (a : ℝ) :
    ∀ y ∈ xs, xs.foldl min a ≤ y := by
  induction xs generalizing a with
  | nil => intro y hy; cases hy
  | cons x xs ih =>
      intro y hy
      rcases List.mem_cons.mp hy with h | h
      · subst h
        exact le_trans (foldl_min_le_init xs (min a y)) (min_le_right a y)
      · exact ih (min a x) y h

/-- A fold of the binary minimum is the initial value or a folded element. -/
theorem foldl_min_mem (xs : List ℝ) (a : ℝ) :
    xs.foldl min a = a ∨ xs.foldl min a ∈ xs := by
  induction xs generalizing a with
  | nil => left; rfl
  | cons x xs ih =>
      rcases ih (min a x) with h | h
      · rcases min_choice a x with hm | hm
        · left; rw [List.foldl_cons, h, hm]
        · right; rw [List.foldl_cons, h, hm]; exact List.mem_cons_self x xs
      · right; exact List.mem_cons_of_mem x h

/-- A fold of the binary maximum is above its initial value. -/
theorem foldl_max_ge_init (xs : List ℝ) (a : ℝ) : a ≤ xs.foldl max a := by
  induction xs generalizing a with
  | nil => exact le_refl a
  | cons x xs ih => exact le_trans (le_max_left a x) (ih (max a x))

/-- A fold of the binary maximum is above every folded element. -/
theorem foldl_max_ge_mem (xs : List ℝ) (a : ℝ) :
    ∀ y ∈ xs, y ≤ xs.foldl max a := by
  induction xs generalizing a with
  | nil => intro y hy; cases hy
  | cons x xs ih =>
      intro y hy
      rcases List.mem_cons.mp hy with h | h
      · subst h
        exact le_trans (le_max_right a y) (foldl_max_ge_init xs (max a y))
      · exact ih (max a x) y h

/-- A fold of the binary maximum is the initial value or a folded element. -/
theorem foldl_max_mem (xs : List ℝ) (a : ℝ) :
    xs.foldl max a = a ∨ xs.foldl max a ∈ xs := by
  induction xs generalizing a with
  | nil => left; rfl
  | cons x xs ih =>
      rcases ih (max a x) with h | h
      · rcases max_choice a x with hm | hm
        · left; rw [List.foldl_cons, h, hm]
        · right; rw [List.foldl_cons, h, hm]; exact List.mem_cons_self x xs
      · right; exact List.mem_cons_of_mem x h

/-- npMin is a lower bound of the list. -/
theorem npMin_le (l : List ℝ) : ∀ y ∈ l, npMin l ≤ y := by
  cases l with
  | nil => intro y hy; cases hy
  | cons x xs =>
      intro y hy
      rcases List.mem_cons.mp hy with h | h
      · subst h; exact foldl_min_le_init xs y
      · exact foldl_min_le_mem xs x y h

/-- npMin of a nonempty list is an element of it. -/
theorem npMin_mem (l : List ℝ) (h : l ≠ []) : npMin l ∈ l := by
  cases l with
  | nil => exact absurd rfl h
  | cons x xs =>
      rcases foldl_min_mem xs x with hm | hm
      · rw [npMin, hm]; exact List.mem_cons_self x xs
      · exact List.mem_cons_of_mem x hm

/-- npMax is an upper bound of the list. -/
theorem npMax_ge (l : List ℝ) : ∀ y ∈ l, y ≤ npMax l := by
  cases l with
  | nil => intro y hy; cases hy
  | cons x xs =>
      intro y hy
      rcases List.mem_cons.mp hy with h | h
      · subst h; exact foldl_max_ge_init xs y
      · exact foldl_max_ge_mem xs x y h

/-- npMax of a nonempty list is an element of it. -/
theorem npMax_mem (l : List ℝ) (h : l ≠ []) : npMax l ∈ l := by
  cases l with
  | nil => exact absurd rfl h
  | cons x xs =>
      rcases foldl_max_mem xs x with hm | hm
      · rw [npMax, hm]; exact List.mem_cons_self x xs
      · exact List.mem_cons_of_mem x hm

/-- A common lower bound of the elements bounds the sum from below. -/
theorem card_mul_le_sum (l : List ℝ) (c : ℝ) (h : ∀ x ∈ l, c ≤ x) :
    (l.length : ℝ) * c ≤ l.sum := by
  induction l with
  | nil => simp
  | cons x xs ih =>
      have h1 : c ≤ x := h x (List.mem_cons_self x xs)
      have h2 := ih (fun y hy => h y (List.mem_cons_of_mem x hy))
      simp only [List.sum_cons, List.length_cons]
      push_cast
      nlinarith

/-- A common upper bound of the elements bounds the sum from above. -/
theorem sum_le_card_mul (l : List ℝ) (c : ℝ) (h : ∀ x ∈ l, x ≤ c) :
    l.sum ≤ (l.length : ℝ) * c := by
  induction l with
  | nil => simp
  | cons x xs ih =>
      have h1 : x ≤ c := h x (List.mem_cons_self x xs)
      have h2 := ih (fun y hy => h y (List.mem_cons_of_mem x hy))
      simp only [List.sum_cons, List.length_cons]
      push_cast
      nlinarith

/-- C3: on a nonempty results list, the aggregate metrics are exactly the
mean of the per-batch means, the mean of the per-batch stds, and the
minimum and maximum of the per-batch means (the latter characterized as an
element below, resp. above, all means). -/
theorem compute_aggregate_metrics_spec (results : List BatchMetrics)
    (h : results ≠ []) :
    (compute_aggregate_metrics results).overall_mean =
      (results.map BatchMetrics.mean).sum / results.length ∧
    (compute_aggregate_metrics results).overall_std =
      (results.map BatchMetrics.std).sum / results.length ∧
    (compute_aggregate_metrics results).min_value ∈
      results.map BatchMetrics.mean ∧
    (∀ x ∈ results.map BatchMetrics.mean,
      (compute_aggregate_metrics results).min_value ≤ x) ∧
    (compute_aggregate_metrics results).max_value ∈
      results.map BatchMetrics.mean ∧
    (∀ x ∈ results.map BatchMetrics.mean,
      x ≤ (compute_aggregate_metrics results).max_value) := by
  have hne : results.map BatchMetrics.mean ≠ [] := by
    simpa using h
  refine ⟨?_, ?_, ?_, ?_, ?_, ?_⟩
  · simp [compute_aggregate_metrics, npMean]
  · simp [compute_aggregate_metrics, npMean]
  · exact npMin_mem _ hne
  · exact npMin_le _
  · exact npMax_mem _ hne
  · exact npMax_ge _

/-- Witness for C3 at a concrete one-element results list. -/
theorem compute_aggregate_metrics_spec_witness :
    ([BatchMetrics.mk 1 2 3] : List BatchMetrics) ≠ [] ∧
    ((compute_aggregate_metrics [BatchMetrics.mk 1 2 3]).overall_mean =
      ([BatchMetrics.mk 1 2 3].map BatchMetrics.mean).sum /
        ([BatchMetrics.mk 1 2 3] : List BatchMetrics).length ∧
    (compute_aggregate_metrics [BatchMetrics.mk 1 2 3]).overall_std =
      ([BatchMetrics.mk 1 2 3].map BatchMetrics.std).sum /
        ([BatchMetrics.mk 1 2 3] : List BatchMetrics).length ∧
    (compute_aggregate_metrics [BatchMetrics.mk 1 2 3]).min_value ∈
      [BatchMetrics.mk 1 2 3].map BatchMetrics.mean ∧
    (∀ x ∈ [BatchMetrics.mk 1 2 3].map BatchMetrics.mean,
      (compute_aggregate_metrics [BatchMetrics.mk 1 2 3]).min_value ≤ x) ∧
    (compute_aggregate_metrics [BatchMetrics.mk 1 2 3]).max_value ∈
      [BatchMetrics.mk 1 2 3].map BatchMetrics.mean ∧
    (∀ x ∈ [BatchMetrics.mk 1 2 3].map BatchMetrics.mean,
      x ≤ (compute_aggregate_metrics [BatchMetrics.mk 1 2 3]).max_value)) :=
  ⟨by simp, compute_aggregate_metrics_spec [BatchMetrics.mk 1 2 3] (by simp)⟩

/-- C6: on a nonempty results list, the overall mean lies between the
minimum and the maximum of the per-batch means. -/
theorem aggregate_mean_between (results : List BatchMetrics)
    (h : results ≠ []) :
    (compute_aggregate_metrics results).min_value ≤
      (compute_aggregate_metrics results).overall_mean ∧
    (compute_aggregate_metrics results).overall_mean ≤
      (compute_aggregate_metrics results).max_value := by
  have hne : results.map BatchMetrics.mean ≠ [] := by simpa using h
  have hpos : (0 : ℝ) < (results.map BatchMetrics.mean).length := by
    exact_mod_cast List.length_pos.mpr hne
  constructor
  · show npMin (results.map BatchMetrics.mean) ≤
      npMean (results.map BatchMetrics.mean)
    rw [npMean, le_div_iff₀ hpos, mul_comm]
    exact card_mul_le_sum _ _ (npMin_le _)
  · show npMean (results.map BatchMetrics.mean) ≤
      npMax (results.map BatchMetrics.mean)
    rw [npMean, div_le_iff₀ hpos, mul_comm]
    exact sum_le_card_mul _ _ (npMax_ge _)

/-- Witness for C6 at a concrete two-element results list. -/
theorem aggregate_mean_between_witness :
    ([BatchMetrics.mk 1 0 0, BatchMetrics.mk 3 0 0] : List BatchMetrics) ≠ [] ∧
    ((compute_aggregate_metrics [BatchMetrics.mk 1 0 0, BatchMetrics.mk 3 0 0]).min_value ≤
      (compute_aggregate_metrics [BatchMetrics.mk 1 0 0, BatchMetrics.mk 3 0 0]).overall_mean ∧
    (compute_aggregate_metrics [BatchMetrics.mk 1 0 0, BatchMetrics.mk 3 0 0]).overall_mean ≤
      (compute_aggregate_metrics [BatchMetrics.mk 1 0 0, BatchMetrics.mk 3 0 0]).max_value) :=
  ⟨by simp, aggregate_mean_between [BatchMetrics.mk 1 0 0, BatchMetrics.mk 3 0 0]
    (by simp)⟩

/-- C10: the aggregate metrics depend only on the mean and std fields of the
results; two lists agreeing on those (in particular, differing only in var)
yield identical aggregates. -/
theorem compute_aggregate_metrics_var_irrelevant (r1 r2 : List BatchMetrics)
    (hm : r1.map BatchMetrics.mean = r2.map BatchMetrics.mean)
    (hs : r1.map BatchMetrics.std = r2.map BatchMetrics.std) :
    compute_aggregate_metrics r1 = compute_aggregate_metrics r2 := by
  unfold compute_aggregate_metrics
  rw [hm, hs]

/-- Witness for C10 at two concrete lists differing only in var. -/
theorem compute_aggregate_metrics_var_irrelevant_witness :
    [BatchMetrics.mk 1 2 3].map BatchMetrics.mean =
      [BatchMetrics.mk 1 2 4].map BatchMetrics.mean ∧
    [BatchMetrics.mk 1 2 3].map BatchMetrics.std =
      [BatchMetrics.mk 1 2 4].map BatchMetrics.std ∧
    compute_aggregate_metrics [BatchMetrics.mk 1 2 3] =
      compute_aggregate_metrics [BatchMetrics.mk 1 2 4] :=
  ⟨rfl, rfl, compute_aggregate_metrics_var_irrelevant
    [BatchMetrics.mk 1 2 3] [BatchMetrics.mk 1 2 4] rfl rfl⟩

/-- The sequential loop produces the metrics of batches 0..k-1 in batch
index order: entry i is the loop body applied to the state before batch i. -/
theorem runBatchesSeq_fst (bs k : Nat) (s : EngineState) :
    (runBatchesSeq bs k s).1 =
      (List.range k).map (fun i => (engineStep bs (engineStateAt bs s i)).1) := by
  induction k generalizing s with
  | zero => simp [runBatchesSeq]
  | succ k ih =>
      rw [List.range_succ_eq_map, List.map_cons, List.map_map]
      show (engineStep bs s).1 :: (runBatchesSeq bs k (engineStep bs s).2).1 =
        (engineStep bs (engineStateAt bs s 0)).1 ::
          (List.range k).map
            ((fun i => (engineStep bs (engineStateAt bs s i)).1) ∘ Nat.succ)
      rw [ih]
      rfl

/-- The loop as written (inside the executor context) never touches the
executor: it computes exactly the sequential result and passes the executor
state through unchanged. -/
theorem runBatchesPool_eq (bs k : Nat) (s : EngineState)
    (ex : ThreadPoolExecutor) :
    runBatchesPool bs k s ex =
      ((runBatchesSeq bs k s).1, (runBatchesSeq bs k s).2, ex) := by
  induction k generalizing s with
  | zero => rfl
  | succ k ih => simp [runBatchesPool, runBatchesSeq, ih]

/-- C2: run_simulation returns exactly n_simulations / batch_size (floor
division) BatchMetrics entries, entry i being the metrics of batch i in
batch index order; with the constructor configuration (40000 simulations,
batch size 1000) this is exactly 40 entries. -/
theorem run_simulation_batches (cfg : SimulationConfig) (s : EngineState) :
    (run_simulation cfg s).1 =
      (List.range (cfg.n_simulations / cfg.batch_size)).map
        (fun i => (engineStep cfg.batch_size (engineStateAt cfg.batch_size s i)).1) ∧
    (run_simulation cfg s).1.length = cfg.n_simulations / cfg.batch_size ∧
    (run_simulation SimulationConfig.default s).1.length = 40 := by
  have key : ∀ (c : SimulationConfig) (t : EngineState),
      (run_simulation c t).1 =
        (List.range (c.n_simulations / c.batch_size)).map
          (fun i => (engineStep c.batch_size (engineStateAt c.batch_size t i)).1) := by
    intro c t
    unfold run_simulation
    rw [runBatchesPool_eq]
    exact runBatchesSeq_fst _ _ _
  refine ⟨key cfg s, ?_, ?_⟩
  · rw [key cfg s]
    simp
  · rw [key SimulationConfig.default s]
    simp [SimulationConfig.default]

/-- C8: the loop of run_simulation never submits any task to the
ThreadPoolExecutor it creates (the submitted list stays empty, the worker
cap stays 4) and its observable result equals that of the same loop run as
a plain sequential loop with the executor removed. -/
theorem run_simulation_no_pool_work (cfg : SimulationConfig) (s : EngineState) :
    (run_simulation cfg s).2.2.submitted = [] ∧
    (run_simulation cfg s).2.2.max_workers = 4 ∧
    (run_simulation cfg s).1 = (run_simulation_seq cfg s).1 ∧
    (run_simulation cfg s).2.1 = (run_simulation_seq cfg s).2 := by
  unfold run_simulation run_simulation_seq
  rw [runBatchesPool_eq]
  exact ⟨rfl, rfl, rfl, rfl⟩

/-- C7: sampling is a deterministic function of the seed and the call
sequence: two runs whose generators carry the same stream (as produced by
the same seed) and position, with equal distribution parameters and call
sequences, return identical sample sequences; likewise two engines
initialized from the same seed stream give identical run_simulation
results. -/
theorem sample_deterministic (d₁ d₂ : OptimizedNormalDistribution)
    (σ₁ σ₂ : Nat → ℝ) (p₁ p₂ : Nat) (calls : List Nat) (cfg : SimulationConfig)
    (hd : d₁ = d₂) (hσ : σ₁ = σ₂) (hp : p₁ = p₂) :
    sampleCalls d₁ (RNG.mk σ₁ p₁) calls = sampleCalls d₂ (RNG.mk σ₂ p₂) calls ∧
    run_simulation cfg (engine_init cfg σ₁) =
      run_simulation cfg (engine_init cfg σ₂) := by
  subst hd
  subst hσ
  subst hp
  exact ⟨rfl, rfl⟩

/-- Witness for C7 at a concrete stream, distribution and call sequence. -/
theorem sample_deterministic_witness :
    OptimizedNormalDistribution.init 0 1 = OptimizedNormalDistribution.init 0 1 ∧
    (fun _ : Nat => (0 : ℝ)) = (fun _ : Nat => (0 : ℝ)) ∧
    (0 : Nat) = 0 ∧
    (sampleCalls (OptimizedNormalDistribution.init 0 1)
        (RNG.mk (fun _ => 0) 0) [1, 2] =
      sampleCalls (OptimizedNormalDistribution.init 0 1)
        (RNG.mk (fun _ => 0) 0) [1, 2] ∧
    run_simulation SimulationConfig.default
        (engine_init SimulationConfig.default (fun _ => 0)) =
      run_simulation SimulationConfig.default
        (engine_init SimulationConfig.default (fun _ => 0))) :=
  ⟨rfl, rfl, rfl, sample_deterministic _ _ _ _ _ _ [1, 2]
    SimulationConfig.default rfl rfl rfl⟩
